import Mathlib

/-!
Verification of the filechat retrieval-augmented QA backend.

The definitions below are a shallow embedding of the Python sources in
`src/backend/` (`word_processor.py`, `excel_processor.py`,
`vector_store.py`, `chat_engine.py`).  Pure functions become Lean
functions; the remote services (OpenAI embeddings / completions) and the
ChromaDB collection become explicit oracle parameters and an explicit
entry-list state.  Floats are modelled over `Rat`, Python ints over
`Nat`/`Int`.
-/

/-! ## Python primitives -/

/-- Accumulator pass over the characters: `acc` holds the (reversed)
characters of the word currently being read; a whitespace character
closes the current word, and empty pieces are never emitted. -/
def wordsAux : List Char → List Char → List String
  | [], acc => if acc.isEmpty then [] else [String.mk acc.reverse]
  | c :: cs, acc =>
      if c.isWhitespace then
        if acc.isEmpty then wordsAux cs [] else String.mk acc.reverse :: wordsAux cs []
      else wordsAux cs (c :: acc)

/-- Python `str.split()` with no arguments: the whitespace-delimited
words of the string, runs of whitespace collapsed, no empty pieces. -/
def pySplit (s : String) : List String := wordsAux s.data []

/-- Python `range(start, stop, step)` as a list of integers.  `none`
models the `ValueError` that Python raises when `step = 0`.  For
`step > 0` the sequence is `start, start+step, ...` while `< stop`; for
`step < 0` it counts down while `> stop` (in this development it is only
applied with `start = 0` and `stop ≥ 0`, where a negative step yields
the empty sequence, exactly as in Python). -/
def pyRange (start stop step : Int) : Option (List Int) :=
  if step = 0 then none
  else
    let count : Nat :=
      if 0 < step then ((stop - start).toNat + (step.toNat - 1)) / step.toNat
      else ((start - stop).toNat + ((-step).toNat - 1)) / (-step).toNat
    some ((List.range count).map (fun k => start + step * Int.ofNat k))

/-! ## Text chunker

`WordProcessor.split_into_chunks` (word_processor.py lines 76-88); the
body of `ExcelProcessor.split_into_chunks` (excel_processor.py lines
96-108) is textually identical, so one definition embeds both.  The
Python loop `for i in range(0, len(words), chunk_size - overlap)` slices
`words[i : i + chunk_size]`, joins with single spaces and appends the
chunk when the joined string is non-empty.  A zero step makes `range`
raise `ValueError`, which the `Except.error` branch models. -/

def split_into_chunks (text : String) (chunk_size : Nat) (overlap : Nat) :
    Except String (List String) :=
  let words := pySplit text
  (pyRange 0 (words.length : Int) ((chunk_size : Int) - (overlap : Int))).elim
    (Except.error "range() arg 3 must not be zero")
    (fun idxs => Except.ok (idxs.foldl
      (fun chunks i =>
        let chunk := " ".intercalate ((words.drop i.toNat).take chunk_size)
        if chunk ≠ "" then chunks ++ [chunk] else chunks)
      []))

/-- Start positions prescribed by the spec for a word list of length
`len` and an advance step `s`: `0, s, 2*s, ...` strictly below `len`
(`(len + s - 1) / s` of them, the ceiling of `len / s`). -/
def chunkStarts (len s : Nat) : List Nat :=
  (List.range ((len + s - 1) / s)).map (fun k => k * s)

/-! ## Vector store model

`VectorStore` (vector_store.py).  The OpenAI embedding client is an
oracle `embed : List String → List (List Rat)`; `create_embeddings`
catches every exception and returns `[]`, so the empty list is the
failure value.  The ChromaDB collection is the list of stored entries. -/

/-- Metadata stored with each indexed entry (vector_store.py lines
43-52). -/
structure EntryMeta where
  file_name : String
  file_path : String
  file_type : String
  folder_path : String
  chunk_index : Nat
deriving DecidableEq, Inhabited

/-- One indexed entry of the ChromaDB collection: id, embedding vector,
document text and metadata. -/
structure Entry where
  id : String
  embedding : List Rat
  document : String
  metadata : EntryMeta
deriving DecidableEq, Inhabited

/-- Shape of a ChromaDB query result (and of the empty result set that
`search` builds itself on embedding failure): one inner list per query
embedding. -/
structure QueryResult where
  documents : List (List String)
  metadatas : List (List EntryMeta)
deriving DecidableEq

/-- Squared Euclidean distance between embedding vectors (ChromaDB's
default `l2` metric; ranking by the square is the same ranking). -/
def sqDist (u v : List Rat) : Rat :=
  ((u.zip v).map (fun p => (p.1 - p.2) * (p.1 - p.2))).sum

/-- Exact-match `where` clause on the `folder_path` metadata field. -/
def matchesWhere (w : Option String) (m : EntryMeta) : Bool :=
  match w with
  | none => true
  | some fp => m.folder_path == fp

/-- Nearer-to-the-query comparison used to rank entries. -/
def distLe (qe : List Rat) (a b : Entry) : Bool :=
  decide (sqDist a.embedding qe ≤ sqDist b.embedding qe)

/-- ChromaDB `collection.query` for a single query embedding, modelled
over the entry list: filter by the `where` clause, rank by distance to
the query embedding (nearest first) and keep the first `n_results`. -/
def collectionQuery (col : List Entry) (qe : List Rat) (n_results : Nat)
    (w : Option String) : QueryResult :=
  let top := ((col.filter (fun e => matchesWhere w e.metadata)).mergeSort
    (distLe qe)).take n_results
  { documents := [top.map (fun e => e.document)],
    metadatas := [top.map (fun e => e.metadata)] }

/-- Python truthiness of the `folder_path` argument in
`VectorStore.search` (vector_store.py lines 75-78): the where clause is
built only when `folder_path` is neither `None` nor the empty string. -/
def whereOf : Option String → Option String
  | some fp => if fp = "" then none else some fp
  | none => none

/-- `VectorStore.search` (vector_store.py lines 63-85): embed the query
(a single item); on embedding failure return the empty result set;
otherwise query the collection with the optional folder filter. -/
def search (embed : List String → List (List Rat)) (col : List Entry)
    (query : String) (n_results : Nat) (folder_path : Option String) :
    QueryResult :=
  let query_embedding := embed [query]
  if query_embedding = [] then { documents := [], metadatas := [] }
  else collectionQuery col (query_embedding.headD []) n_results
    (whereOf folder_path)

/-- The metadata dict handed to `add_documents` by the ingestion
endpoint; `file_type` and `folder_path` are read with `dict.get`
defaults (`"PDF"` and `""`), so they are optional here. -/
structure AddMeta where
  file_name : String
  file_path : String
  file_type : Option String
  folder_path : Option String

/-- Entry id scheme of `add_documents`: the Python f-string
`{file_id}_{i}` (vector_store.py line 41). -/
def mkId (file_id : String) (i : Nat) : String :=
  file_id ++ "_" ++ toString i

/-- The entry stored for chunk `i` (vector_store.py lines 41-59): id
`{file_id}_{i}`, the i-th embedding and chunk, metadata with
`chunk_index = i`. -/
def mkEntry (metadata : AddMeta) (file_id : String) (chunks : List String)
    (embeddings : List (List Rat)) (i : Nat) : Entry :=
  { id := mkId file_id i,
    embedding := embeddings.getD i [],
    document := chunks.getD i "",
    metadata :=
      { file_name := metadata.file_name,
        file_path := metadata.file_path,
        file_type := metadata.file_type.getD "PDF",
        folder_path := metadata.folder_path.getD "",
        chunk_index := i } }

/-- ChromaDB `collection.add` modelled as an id-keyed upsert, following
the spec's contract for the external store (re-adding under an existing
id overwrites rather than duplicates): stored entries whose id collides
with an incoming id are replaced, the others are kept. -/
def collectionAdd (col : List Entry) (news : List Entry) : List Entry :=
  col.filter (fun e => news.all (fun n => n.id ≠ e.id)) ++ news

/-- `VectorStore.add_documents` (vector_store.py lines 31-61): no-op on
an empty chunk list; compute embeddings in one batched call; on failure
(empty embedding list) log and return, index unchanged; otherwise store
one entry per chunk. -/
def add_documents (embed : List String → List (List Rat)) (col : List Entry)
    (chunks : List String) (metadata : AddMeta) (file_id : String) :
    List Entry :=
  if chunks = [] then col
  else
    let embeddings := embed chunks
    if embeddings = [] then col
    else collectionAdd col
      ((List.range chunks.length).map (mkEntry metadata file_id chunks embeddings))

/-- Stand-in for `hashlib.md5(path.encode()).hexdigest()` in
`WordProcessor.extract_text` (word_processor.py lines 50-51): a fixed
pure function of the path string.  The claims rely only on its
determinism (the same path always yields the same digest), never on any
property of the digest value, so the hash computation itself is left
abstract behind a simple injective stand-in. -/
def md5hex (s : String) : String := "md5-" ++ s

/-- `file_id` computed by `WordProcessor.extract_text` for a file path
(word_processor.py lines 50-51). -/
def extract_text_file_id (word_path : String) : String := md5hex word_path

/-- `VectorStore.clear_collection` (vector_store.py lines 106-132).  The
three ChromaDB client calls are oracles for their outcomes:
`del_outcome` for `delete_collection` (its exception is swallowed by the
inner try/except, so it cannot influence the result), `create_outcome`
for `create_collection` (success yields a fresh empty collection) and
`goc_outcome` for the fallback `get_or_create_collection`.  Returns the
success boolean together with the resulting collection state (`old` is
kept when everything fails). -/
def clear_collection (del_outcome : Except String Unit)
    (create_outcome : Except String Unit)
    (goc_outcome : Except String (List Entry)) (old : List Entry) :
    Bool × List Entry :=
  match del_outcome, create_outcome with
  | _, Except.ok _ => (true, [])
  | _, Except.error _ =>
      match goc_outcome with
      | Except.ok c => (true, c)
      | Except.error _ => (false, old)

/-! ## Chat engine

`ChatEngine.ask_question` (chat_engine.py lines 14-85).  The completion
client is an oracle `llm : String → String → Except String String`
taking the system and user prompts and returning the completion or the
exception text.  The response dict becomes `ChatResponse`. -/

structure ChatResponse where
  answer : String
  sources : List String
  status : String
deriving DecidableEq

/-- The fixed guidance message returned when retrieval finds nothing
(chat_engine.py line 28). -/
def no_results_answer : String :=
  "I couldn\x27t find any relevant information in your documents. Please make sure you\x27ve indexed some files first."

/-- The fixed system instruction (chat_engine.py lines 46-50). -/
def system_prompt : String :=
  "You are a helpful assistant that answers questions based on the provided document context. Always base your answers on the provided context. If the answer isn\x27t in the context, say so. Be concise but thorough."

/-- The user message template embedding the assembled context and the
verbatim question (chat_engine.py lines 52-57). -/
def user_prompt (context question : String) : String :=
  "Context from documents:\n" ++ context ++ "\n\nQuestion: " ++ question
    ++ "\n\nPlease answer the question based on the context provided above."

/-- `ChatEngine.ask_question`: retrieve (n_results = 5), gate on empty
results, assemble context and sources, synthesize, and wrap any
completion failure into a status-`error` response.  The stored
metadatas of a ChromaDB result are aligned with its documents, so the
success branch reads the first metadata slot with `headD []`. -/
def ask_question (embed : List String → List (List Rat)) (col : List Entry)
    (llm : String → String → Except String String) (question : String)
    (folder_path : Option String) : ChatResponse :=
  let search_results := search embed col question 5 folder_path
  if search_results.documents = [] ∨ search_results.documents.headD [] = [] then
    { answer := no_results_answer, sources := [], status := "no_results" }
  else
    let context_chunks := search_results.documents.headD []
    let sources := (search_results.metadatas.headD []).foldl
      (fun sources m =>
        if m.file_name ∈ sources then sources else sources ++ [m.file_name]) []
    let context := "\n\n".intercalate context_chunks
    match llm system_prompt (user_prompt context question) with
    | Except.ok answer =>
        { answer := answer, sources := sources, status := "success" }
    | Except.error e =>
        { answer := "Error calling OpenAI API: " ++ e, sources := [],
          status := "error" }

/-- Duplicates removed keeping the first appearance of each element:
the reference description of the `sources` accumulation loop
(chat_engine.py lines 37-40). -/
def dedupFirstSeen : List String → List String
  | [] => []
  | x :: xs => x :: dedupFirstSeen (xs.filter (fun y => y ≠ x))
termination_by l => l.length
decreasing_by
  simp only [List.length_cons]
  exact Nat.lt_succ_of_le (List.length_filter_le _ xs)

/-- Structural decimal digit list of a natural number (little helper to
reason about `Nat.repr`, which core defines through the fuel-based
`Nat.toDigitsCore`). -/
def digitsRec (n : Nat) : List Char :=
  if n < 10 then [Nat.digitChar n]
  else digitsRec (n / 10) ++ [Nat.digitChar (n % 10)]
decreasing_by exact Nat.div_lt_self (by omega) (by omega)

/-- Decimal value of a digit-character list, inverse of `digitsRec`. -/
def unDigits (l : List Char) : Nat :=
  l.foldl (fun acc c => acc * 10 + (c.toNat - Char.toNat (Char.ofNat 48))) 0

/-! ### Sample values used by the concrete witnesses -/

/-- Sample stored metadata. -/
def sampleMeta : EntryMeta :=
  { file_name := "report.docx", file_path := "/docs/report.docx",
    file_type := "Word", folder_path := "/docs", chunk_index := 0 }

/-- Sample indexed entry. -/
def sampleEntry : Entry :=
  { id := "fid_0", embedding := [1], document := "sample chunk text",
    metadata := sampleMeta }

/-- Embedding oracle that always succeeds with a one-dimensional
vector per input. -/
def embedOne : List String → List (List Rat) := fun texts => texts.map (fun _ => [1])

/-- Embedding oracle whose remote call always fails (the `[]` branch of
`create_embeddings`). -/
def embedFail : List String → List (List Rat) := fun _ => []

/-- Completion oracle whose call always raises. -/
def llmFail : String → String → Except String String :=
  fun _ _ => Except.error "boom"

/-- Completion oracle that answers with the user prompt verbatim
(used to observe the prompt that `ask_question` sends). -/
def llmEcho : String → String → Except String String :=
  fun _ u => Except.ok u

/-! ### Chunker lemmas -/

theorem mk_reverse_ne_empty {acc : List Char} (hacc : acc.isEmpty = false) :
    String.mk acc.reverse ≠ "" := by
  intro h
  have hdata : acc.reverse = [] := congrArg String.data h
  rw [List.reverse_eq_nil_iff] at hdata
  subst hdata
  simp at hacc

theorem wordsAux_ne_empty {w : String} :
    ∀ (cs acc : List Char), w ∈ wordsAux cs acc → w ≠ "" := by
  intro cs
  induction cs with
  | nil =>
      intro acc hw
      by_cases h : acc.isEmpty
      · simp [wordsAux, h] at hw
      · rw [wordsAux, if_neg h, List.mem_singleton] at hw
        subst hw
        exact mk_reverse_ne_empty (Bool.eq_false_iff.mpr h)
  | cons c cs ih =>
      intro acc hw
      by_cases hws : c.isWhitespace
      · by_cases h : acc.isEmpty
        · rw [wordsAux, if_pos hws, if_pos h] at hw
          exact ih [] hw
        · rw [wordsAux, if_pos hws, if_neg h, List.mem_cons] at hw
          rcases hw with hw | hw
          · subst hw
            exact mk_reverse_ne_empty (Bool.eq_false_iff.mpr h)
          · exact ih [] hw
      · rw [wordsAux, if_neg hws] at hw
        exact ih (c :: acc) hw

theorem pySplit_ne_empty {t : String} {w : String} (hw : w ∈ pySplit t) :
    w ≠ "" :=
  wordsAux_ne_empty t.data [] hw

theorem intercalate_go_length (as : List String) (acc s : String) :
    acc.length ≤ (String.intercalate.go acc s as).length := by
  induction as generalizing acc with
  | nil => simp [String.intercalate.go]
  | cons a as ih =>
      have h3 : String.intercalate.go acc s (a :: as)
          = String.intercalate.go (acc ++ s ++ a) s as := by
        simp [String.intercalate.go]
      have h1 : acc.length ≤ (acc ++ s ++ a).length := by
        simp only [String.length_append]; omega
      rw [h3]
      exact le_trans h1 (ih (acc ++ s ++ a))

theorem intercalate_cons_ne_empty {w : String} (rest : List String)
    (hw : w ≠ "") : " ".intercalate (w :: rest) ≠ "" := by
  intro h
  have hlen : (" ".intercalate (w :: rest)).length = 0 := by simp [h]
  have hgo : w.length ≤ (" ".intercalate (w :: rest)).length :=
    intercalate_go_length rest w " "
  rw [hlen, Nat.le_zero] at hgo
  have hdata : w.data = [] := List.length_eq_zero.mp hgo
  exact hw (String.ext (by simp [hdata]))

theorem pyRange_pos (len s : Nat) (hs : 0 < s) :
    pyRange 0 (len : Int) (s : Int) =
      some ((chunkStarts len s).map Int.ofNat) := by
  have hstep : (s : Int) ≠ 0 := by exact_mod_cast hs.ne'
  have hpos : (0 : Int) < (s : Int) := by exact_mod_cast hs
  simp only [pyRange, if_neg hstep, if_pos hpos, Int.sub_zero, Int.toNat_ofNat]
  have hnum : len + (s - 1) = len + s - 1 := by omega
  rw [hnum, chunkStarts, List.map_map]
  congr 1
  apply List.map_congr_left
  intro k _
  simp only [Function.comp_apply, Int.ofNat_eq_coe]
  push_cast
  ring

theorem mem_chunkStarts_lt {len s i : Nat} (hs : 0 < s)
    (hi : i ∈ chunkStarts len s) : i < len := by
  simp only [chunkStarts, List.mem_map, List.mem_range] at hi
  obtain ⟨k, hk, rfl⟩ := hi
  rcases Nat.eq_zero_or_pos len with hlen | hlen
  · subst hlen
    have h0 : 0 + s - 1 = s - 1 := by omega
    rw [h0, Nat.div_eq_of_lt (by omega)] at hk
    omega
  · have hcount : (len + s - 1) / s = (len - 1) / s + 1 := by
      have h1 : len + s - 1 = (len - 1) + s := by omega
      rw [h1, Nat.add_div_right _ hs]
    rw [hcount] at hk
    have hk' : k ≤ (len - 1) / s := Nat.lt_succ_iff.mp hk
    have hmul : k * s ≤ len - 1 := (Nat.le_div_iff_mul_le hs).mp hk'
    omega

theorem div_mul_mem_chunkStarts {len s j : Nat} (hs : 0 < s)
    (hj : j < len) : j / s * s ∈ chunkStarts len s := by
  simp only [chunkStarts, List.mem_map, List.mem_range]
  refine ⟨j / s, ?_, rfl⟩
  have hcount : (len + s - 1) / s = (len - 1) / s + 1 := by
    have h1 : len + s - 1 = (len - 1) + s := by omega
    rw [h1, Nat.add_div_right _ hs]
  rw [hcount]
  have hmul : j / s * s ≤ j := Nat.div_mul_le_self j s
  have h2 : j / s * s ≤ len - 1 := by omega
  exact Nat.lt_succ_of_le ((Nat.le_div_iff_mul_le hs).mpr h2)

theorem foldl_append_if (l : List α) (f : α → String) (init : List String) :
    l.foldl (fun acc x => if f x ≠ "" then acc ++ [f x] else acc) init
      = init ++ (l.filter (fun x => f x ≠ "")).map f := by
  induction l generalizing init with
  | nil => simp
  | cons a l ih =>
      by_cases h : f a = ""
      · rw [List.foldl_cons, if_neg (by simp [h]), List.filter_cons,
          if_neg (by simp [h])]
        exact ih init
      · rw [List.foldl_cons, if_pos (by simp [h]), List.filter_cons,
          if_pos (by simp [h]), List.map_cons, ih (init ++ [f a])]
        simp

/-- The word at position `i + m` of `words` is a member of the window
`words[i : i + c]` as soon as `m < c` and `i + m` is in range. -/
theorem mem_window {words : List String} {i m c : Nat} (hm : m < c)
    (hrange : i + m < words.length) :
    words.get ⟨i + m, hrange⟩ ∈ (words.drop i).take c := by
  have hdroplen : m < (words.drop i).length := by
    rw [List.length_drop]; omega
  have htakelen : m < ((words.drop i).take c).length := by
    rw [List.length_take, List.length_drop]; omega
  have h1 : ((words.drop i).take c).get ⟨m, htakelen⟩
      = words.get ⟨i + m, hrange⟩ := by
    rw [List.get_eq_getElem, List.get_eq_getElem, List.getElem_take,
      List.getElem_drop]
  rw [← h1]
  exact List.get_mem _ _ _

/-! ## Claim C1 (corrected) -/

/-- C1 counterexample: the claim says every call with
`overlap ≥ chunk_size` fails with a configuration error, yet with
`chunk_size = 2` and `overlap = 3` (so `overlap > chunk_size`) the
chunker succeeds and returns the empty chunk list: the negative step
makes the Python `range` empty, so the loop body never runs and every
word of the text is silently dropped. -/
theorem split_into_chunks_claim_c1_counterexample :
    split_into_chunks "a b c" 2 3 = Except.ok [] ∧
    (split_into_chunks "a b c" 2 3).isOk = true :=
  ⟨rfl, rfl⟩

/-- C1 amended: for `overlap = chunk_size` the call does fail (Python
`range` raises `ValueError` on a zero step), but for
`overlap > chunk_size` the call does not fail: the negative step makes
the range empty and the chunker returns the empty chunk list.  In
neither case does it loop indefinitely or produce unbounded output. -/
theorem split_into_chunks_overlap_ge (text : String) (chunk_size overlap : Nat) :
    (overlap = chunk_size →
      split_into_chunks text chunk_size overlap
        = Except.error "range() arg 3 must not be zero") ∧
    (chunk_size < overlap →
      split_into_chunks text chunk_size overlap = Except.ok []) := by
  constructor
  · intro h
    subst h
    simp [split_into_chunks, pyRange]
  · intro h
    have hstep : ((chunk_size : Int) - (overlap : Int)) ≠ 0 := by omega
    have hneg : ¬ (0 : Int) < ((chunk_size : Int) - (overlap : Int)) := by omega
    have h1 : ((0 : Int) - ((pySplit text).length : Int)).toNat = 0 := by omega
    have h2 : (-((chunk_size : Int) - (overlap : Int))).toNat
        = overlap - chunk_size := by omega
    simp only [split_into_chunks, pyRange, if_neg hstep, if_neg hneg, h1, h2]
    rw [Nat.zero_add, Nat.div_eq_of_lt (by omega)]
    simp

/-- C1 witness: at `chunk_size = 2`, `overlap = 2` the call errors, and
at `chunk_size = 2`, `overlap = 3` it returns the empty chunk list. -/
theorem split_into_chunks_overlap_ge_witness :
    split_into_chunks "a" 2 2 = Except.error "range() arg 3 must not be zero" ∧
    split_into_chunks "a b c" 2 3 = Except.ok [] :=
  ⟨(split_into_chunks_overlap_ge "a" 2 2).1 rfl,
   (split_into_chunks_overlap_ge "a b c" 2 3).2 (by omega)⟩

/-! ## Claim C2 -/

/-- C2: for `0 ≤ overlap < chunk_size` the chunker is the deterministic
function returning exactly the windows `words[i : i + chunk_size]`
joined by single spaces, for start positions `i = 0, s, 2*s, ...` up to
`len words` with `s = chunk_size - overlap` (all such windows are
non-empty, so none is suppressed by the non-empty-chunk guard), and
every whitespace-delimited word of the text belongs to at least one
emitted window. -/
theorem split_into_chunks_spec (text : String) (chunk_size overlap : Nat)
    (hov : overlap < chunk_size) :
    (split_into_chunks text chunk_size overlap =
      Except.ok ((chunkStarts (pySplit text).length (chunk_size - overlap)).map
        (fun i => " ".intercalate (((pySplit text).drop i).take chunk_size)))) ∧
    (∀ j (hj : j < (pySplit text).length),
      ∃ i ∈ chunkStarts (pySplit text).length (chunk_size - overlap),
        (pySplit text).get ⟨j, hj⟩ ∈ ((pySplit text).drop i).take chunk_size) := by
  have hs : 0 < chunk_size - overlap := by omega
  constructor
  · have hcast : ((chunk_size : Int) - (overlap : Int))
        = ((chunk_size - overlap : Nat) : Int) := by omega
    simp only [split_into_chunks, hcast,
      pyRange_pos (pySplit text).length (chunk_size - overlap) hs,
      Option.elim_some]
    congr 1
    rw [List.foldl_map]
    simp only [Int.ofNat_eq_coe, Int.toNat_ofNat]
    rw [foldl_append_if _ (fun i =>
      " ".intercalate (((pySplit text).drop i).take chunk_size)) []]
    rw [List.filter_eq_self.mpr, List.nil_append]
    intro i hi
    have hilt : i < (pySplit text).length := mem_chunkStarts_lt hs hi
    have hwin : ((pySplit text).drop i).take chunk_size ≠ [] := by
      intro hnil
      have := congrArg List.length hnil
      rw [List.length_take, List.length_drop] at this
      simp only [List.length_nil] at this
      omega
    obtain ⟨w, rest, hwr⟩ := List.exists_cons_of_ne_nil hwin
    have hwmem : w ∈ pySplit text := by
      have h1 : w ∈ ((pySplit text).drop i).take chunk_size := by
        rw [hwr]; exact List.mem_cons_self _ _
      exact List.drop_subset i _ (List.take_subset _ _ h1)
    rw [hwr]
    exact decide_eq_true (intercalate_cons_ne_empty rest (pySplit_ne_empty hwmem))
  · intro j hj
    refine ⟨j / (chunk_size - overlap) * (chunk_size - overlap),
      div_mul_mem_chunkStarts hs hj, ?_⟩
    have hdm : j / (chunk_size - overlap) * (chunk_size - overlap)
        + j % (chunk_size - overlap) = j := by
      rw [Nat.mul_comm]
      exact Nat.div_add_mod j (chunk_size - overlap)
    have hmc : j % (chunk_size - overlap) < chunk_size :=
      lt_of_lt_of_le (Nat.mod_lt j hs) (Nat.sub_le _ _)
    have hrange : j / (chunk_size - overlap) * (chunk_size - overlap)
        + j % (chunk_size - overlap) < (pySplit text).length := by
      rw [hdm]; exact hj
    have hmem := mem_window hmc hrange
    have heq : (⟨j, hj⟩ : Fin (pySplit text).length)
        = ⟨j / (chunk_size - overlap) * (chunk_size - overlap)
            + j % (chunk_size - overlap), hrange⟩ := Fin.ext hdm.symm
    rw [heq]
    exact hmem

/-- C2 witness: on the text `"alpha beta gamma"` with window 2 and
overlap 1 the chunker emits exactly the spec windows, concretely
`["alpha beta", "beta gamma", "gamma"]`. -/
theorem split_into_chunks_spec_witness :
    split_into_chunks "alpha beta gamma" 2 1
      = Except.ok ["alpha beta", "beta gamma", "gamma"] ∧
    (split_into_chunks "alpha beta gamma" 2 1 =
      Except.ok ((chunkStarts (pySplit "alpha beta gamma").length (2 - 1)).map
        (fun i => " ".intercalate (((pySplit "alpha beta gamma").drop i).take 2)))) :=
  ⟨rfl, (split_into_chunks_spec "alpha beta gamma" 2 1 (by omega)).1⟩

/-! ### Decimal id arithmetic: `Nat.repr` is injective -/

theorem digitsRec_lt {n : Nat} (h : n < 10) :
    digitsRec n = [Nat.digitChar n] := by
  conv_lhs => rw [digitsRec]
  rw [if_pos h]

theorem digitsRec_ge {n : Nat} (h : ¬ n < 10) :
    digitsRec n = digitsRec (n / 10) ++ [Nat.digitChar (n % 10)] := by
  conv_lhs => rw [digitsRec]
  rw [if_neg h]

theorem toDigitsCore_eq_digitsRec :
    ∀ (fuel n : Nat) (acc : List Char), n < fuel →
      Nat.toDigitsCore 10 fuel n acc = digitsRec n ++ acc := by
  intro fuel
  induction fuel with
  | zero => intro n acc h; omega
  | succ fuel ih =>
      intro n acc h
      by_cases h10 : n < 10
      · have hdiv : n / 10 = 0 := by omega
        rw [Nat.toDigitsCore, if_pos hdiv, digitsRec_lt h10,
          Nat.mod_eq_of_lt h10]
        rfl
      · have hdiv : ¬ n / 10 = 0 := by omega
        rw [Nat.toDigitsCore, if_neg hdiv, ih (n / 10) _ (by omega),
          digitsRec_ge h10, List.append_assoc]
        rfl

theorem unDigits_append (xs : List Char) (c : Char) :
    unDigits (xs ++ [c])
      = unDigits xs * 10 + (c.toNat - Char.toNat (Char.ofNat 48)) := by
  simp [unDigits, List.foldl_append]

theorem digitChar_toNat : ∀ m, m < 10 → (Nat.digitChar m).toNat = m + 48 := by
  decide

theorem char48 : Char.toNat (Char.ofNat 48) = 48 := rfl

theorem unDigits_digitsRec (n : Nat) : unDigits (digitsRec n) = n := by
  induction n using Nat.strong_induction_on with
  | _ n ih =>
      by_cases h : n < 10
      · rw [digitsRec_lt h]
        simp only [unDigits, List.foldl_cons, List.foldl_nil, char48,
          digitChar_toNat n h]
        omega
      · rw [digitsRec_ge h, unDigits_append,
          ih (n / 10) (Nat.div_lt_self (by omega) (by omega)),
          digitChar_toNat (n % 10) (by omega), char48]
        omega

theorem repr_eq_digitsRec (n : Nat) : Nat.repr n = (digitsRec n).asString := by
  rw [Nat.repr, Nat.toDigits,
    toDigitsCore_eq_digitsRec (n + 1) n [] (by omega), List.append_nil]

theorem nat_repr_injective : Function.Injective Nat.repr := by
  intro m n h
  rw [repr_eq_digitsRec, repr_eq_digitsRec] at h
  have hd : digitsRec m = digitsRec n := by
    have h2 := congrArg String.data h
    simpa [List.asString] using h2
  exact (unDigits_digitsRec m).symm.trans
    ((congrArg unDigits hd).trans (unDigits_digitsRec n))

theorem toString_nat_eq_repr (n : Nat) : toString n = Nat.repr n := rfl

theorem mkId_injective (fid : String) : Function.Injective (mkId fid) := by
  intro i j h
  have hdata := congrArg String.data h
  simp only [mkId, String.data_append] at hdata
  have h2 : (toString i).data = (toString j).data :=
    List.append_cancel_left hdata
  have h3 : toString i = toString j := String.ext h2
  rw [toString_nat_eq_repr, toString_nat_eq_repr] at h3
  exact nat_repr_injective h3

theorem mkIds_nodup (fid : String) (n : Nat) :
    ((List.range n).map (mkId fid)).Nodup :=
  List.Nodup.map (mkId_injective fid) (List.nodup_range n)

/-! ### Sources deduplication lemmas -/

theorem dedupFirstSeen_cons (x : String) (xs : List String) :
    dedupFirstSeen (x :: xs)
      = x :: dedupFirstSeen (xs.filter (fun y => y ≠ x)) := by
  rw [dedupFirstSeen]

theorem foldl_insert_eq (l : List String) (acc : List String) :
    l.foldl (fun acc x => if x ∈ acc then acc else acc ++ [x]) acc
      = acc ++ dedupFirstSeen (l.filter (fun y => y ∉ acc)) := by
  induction l generalizing acc with
  | nil => simp [dedupFirstSeen]
  | cons x xs ih =>
      rw [List.foldl_cons, List.filter_cons]
      by_cases hx : x ∈ acc
      · rw [if_pos hx, if_neg (by simpa using hx)]
        exact ih acc
      · rw [if_neg hx, if_pos (by simpa using hx), dedupFirstSeen_cons,
          List.filter_filter, ih (acc ++ [x])]
        have hcong : xs.filter (fun y => y ∉ acc ++ [x])
            = xs.filter (fun a => decide (a ≠ x) && decide (a ∉ acc)) := by
          apply List.filter_congr
          intro y _
          simp [List.mem_append, not_or, and_comm]
        rw [hcong]
        simp

theorem sources_foldl_eq (metas : List EntryMeta) :
    metas.foldl (fun sources m =>
        if m.file_name ∈ sources then sources else sources ++ [m.file_name]) []
      = dedupFirstSeen (metas.map (fun m => m.file_name)) := by
  rw [← List.foldl_map (fun m : EntryMeta => m.file_name)
    (fun acc x => if x ∈ acc then acc else acc ++ [x]) metas []]
  rw [foldl_insert_eq]
  have : (metas.map (fun m => m.file_name)).filter (fun y => y ∉ ([] : List String))
      = metas.map (fun m => m.file_name) := by
    apply List.filter_eq_self.mpr
    intro a _
    simp
  rw [this, List.nil_append]

/-! ## Claim C10 -/

/-- C10: passing `folder_path = ""` applies no folder filter at all —
the Python truthiness test `if folder_path:` treats the empty string
like `None`, so the search equals the unfiltered search and the where
clause accepts entries of every folder (it does not match only entries
whose `folder_path` metadata is empty). -/
theorem search_empty_folder_path_no_filter
    (embed : List String → List (List Rat)) (col : List Entry)
    (query : String) (n_results : Nat) :
    search embed col query n_results (some "")
      = search embed col query n_results none ∧
    ∀ m : EntryMeta, matchesWhere (whereOf (some "")) m = true := by
  constructor
  · rfl
  · intro m
    rfl

/-! ## Claim C7 -/

/-- C7: `clear_collection` always returns a boolean (the model is a
total function, mirroring that every exception is caught): the swallowed
delete outcome never influences the result (so the call is safe when no
collection entries exist and the delete raises), on failure of the
delete-and-recreate path it falls back to get-or-create and still
reports success with that collection, and it returns `false` exactly
when both the create and the fallback get-or-create fail. -/
theorem clear_collection_spec (del_outcome del_outcome2 : Except String Unit)
    (create_outcome : Except String Unit)
    (goc_outcome : Except String (List Entry)) (old : List Entry) :
    (clear_collection del_outcome create_outcome goc_outcome old
      = clear_collection del_outcome2 create_outcome goc_outcome old) ∧
    ((clear_collection del_outcome create_outcome goc_outcome old).1 = false ↔
      create_outcome.isOk = false ∧ goc_outcome.isOk = false) ∧
    (∀ gc, create_outcome.isOk = false → goc_outcome = Except.ok gc →
      clear_collection del_outcome create_outcome goc_outcome old
        = (true, gc)) := by
  refine ⟨?_, ?_, ?_⟩
  · cases create_outcome <;> cases goc_outcome <;> rfl
  · cases create_outcome <;> cases goc_outcome <;>
      simp [clear_collection, Except.isOk, Except.toBool]
  · intro gc hc hg
    subst hg
    cases create_outcome with
    | ok _ => simp [Except.isOk, Except.toBool] at hc
    | error _ => rfl

/-- C7 witness: delete and create both fail, the get-or-create fallback
succeeds, so the call reports success with the fallback collection. -/
theorem clear_collection_spec_witness :
    clear_collection (Except.error "delete failed") (Except.error "create failed")
      (Except.ok [sampleEntry]) [] = (true, [sampleEntry]) :=
  (clear_collection_spec (Except.error "delete failed") (Except.ok ())
    (Except.error "create failed") (Except.ok [sampleEntry]) []).2.2
    [sampleEntry] rfl rfl

/-! ## Claim C4 -/

/-- C4: when retrieval returns no documents (empty result set, or an
empty first result slot), `ask_question` answers with the fixed
guidance message, empty sources and status `no_results`, and the
outcome is the same for every completion oracle — no completion-model
call is observable. -/
theorem ask_question_no_results (embed : List String → List (List Rat))
    (col : List Entry) (question : String) (folder_path : Option String)
    (hgate : (search embed col question 5 folder_path).documents = [] ∨
      (search embed col question 5 folder_path).documents.headD [] = []) :
    ∀ llm : String → String → Except String String,
      ask_question embed col llm question folder_path
        = { answer := no_results_answer, sources := [],
            status := "no_results" } := by
  intro llm
  simp only [ask_question]
  rw [if_pos hgate]

/-- C4 witness: with a failing embedding oracle the search result is
empty and the chat terminates in the `no_results` outcome (for the
always-raising completion oracle in particular). -/
theorem ask_question_no_results_witness :
    ask_question embedFail [sampleEntry] llmFail "any question" none
      = { answer := no_results_answer, sources := [],
          status := "no_results" } :=
  ask_question_no_results embedFail [sampleEntry] "any question" none
    (Or.inl rfl) llmFail

/-! ## Claim C8 -/

/-- C8: past the gate, when the completion call fails for any reason,
`ask_question` returns status `error`, an answer string embedding the
underlying failure detail and an empty sources list; the oracle is
consulted exactly once in the body (no retry structure exists) and the
failure is returned as a value, never escaping the call. -/
theorem ask_question_error (embed : List String → List (List Rat))
    (col : List Entry) (question : String) (folder_path : Option String)
    (e : String) (llm : String → String → Except String String)
    (hgate : ¬ ((search embed col question 5 folder_path).documents = [] ∨
      (search embed col question 5 folder_path).documents.headD [] = []))
    (hllm : ∀ s u, llm s u = Except.error e) :
    ask_question embed col llm question folder_path
      = { answer := "Error calling OpenAI API: " ++ e, sources := [],
          status := "error" } := by
  simp only [ask_question]
  rw [if_neg hgate, hllm]

/-- C8 witness: one indexed entry, a working embedding oracle and an
always-raising completion oracle produce the error response embedding
the exception text. -/
theorem ask_question_error_witness :
    ask_question embedOne [sampleEntry] llmFail "q" none
      = { answer := "Error calling OpenAI API: " ++ "boom", sources := [],
          status := "error" } :=
  ask_question_error embedOne [sampleEntry] "q" none "boom" llmFail
    (by simp [search, embedOne, collectionQuery, whereOf, matchesWhere,
      sampleEntry])
    (fun _ _ => rfl)

/-! ## Claim C9 -/

/-- C9: past the gate, the user prompt handed to the completion model
embeds as context the retrieved chunk texts joined in ranked order by a
blank line (observed through the echoing oracle, whose answer is that
prompt verbatim), and `sources` is the list of contributing file names
with duplicates removed in first-appearance order. -/
theorem ask_question_success_assembly (embed : List String → List (List Rat))
    (col : List Entry) (question : String) (folder_path : Option String)
    (hgate : ¬ ((search embed col question 5 folder_path).documents = [] ∨
      (search embed col question 5 folder_path).documents.headD [] = [])) :
    ask_question embed col llmEcho question folder_path
      = { answer := user_prompt
            ("\n\n".intercalate
              ((search embed col question 5 folder_path).documents.headD []))
            question,
          sources := dedupFirstSeen
            (((search embed col question 5 folder_path).metadatas.headD []).map
              (fun m => m.file_name)),
          status := "success" } := by
  simp only [ask_question]
  rw [if_neg hgate, sources_foldl_eq]
  rfl

/-- C9 witness: with one indexed entry the echoed prompt shows the
context assembled from the single retrieved chunk, and the sources are
the deduplicated file names. -/
theorem ask_question_success_assembly_witness :
    ask_question embedOne [sampleEntry] llmEcho "q" none
      = { answer := user_prompt
            ("\n\n".intercalate
              ((search embedOne [sampleEntry] "q" 5 none).documents.headD []))
            "q",
          sources := dedupFirstSeen
            (((search embedOne [sampleEntry] "q" 5 none).metadatas.headD []).map
              (fun m => m.file_name)),
          status := "success" } :=
  ask_question_success_assembly embedOne [sampleEntry] "q" none
    (by simp [search, embedOne, collectionQuery, whereOf, matchesWhere,
      sampleEntry])

/-! ### Add-path lemmas -/

theorem all_map_general {α β : Type} (l : List α) (f : α → β) (p : β → Bool) :
    (l.map f).all p = l.all (fun a => p (f a)) := by
  induction l with
  | nil => rfl
  | cons a l ih => simp [List.all_cons, ih]

theorem entries_map_id (metadata : AddMeta) (file_id : String)
    (chunks : List String) (em : List (List Rat)) (n : Nat) :
    (((List.range n).map (mkEntry metadata file_id chunks em)).map
        (fun e => e.id))
      = (List.range n).map (mkId file_id) := by
  rw [List.map_map]
  rfl

/-- On the success path, `add_documents` replaces the colliding ids and
appends one freshly built entry per chunk. -/
theorem add_documents_eq (embed : List String → List (List Rat))
    (col : List Entry) (chunks : List String) (metadata : AddMeta)
    (file_id : String) (hc : chunks ≠ []) (he : embed chunks ≠ []) :
    add_documents embed col chunks metadata file_id
      = col.filter (fun e =>
          ((List.range chunks.length).map (mkId file_id)).all
            (fun id => id ≠ e.id))
        ++ (List.range chunks.length).map
            (mkEntry metadata file_id chunks (embed chunks)) := by
  simp only [add_documents, if_neg hc, if_neg he, collectionAdd]
  congr 1
  apply List.filter_congr
  intro e _
  rw [all_map_general, all_map_general]
  rfl

/-! ## Claim C5 -/

/-- C5: `add_documents` is a no-op on an empty chunk list; when the
embedding call fails or yields an empty sequence it returns (a value,
not an exception) with the index unchanged; otherwise it stores exactly
one entry per chunk, the entry for chunk `i` carrying id
`{file_id}_{i}`, `chunk_index` `i` and the chunk text. -/
theorem add_documents_spec (embed : List String → List (List Rat))
    (col : List Entry) (chunks : List String) (metadata : AddMeta)
    (file_id : String) :
    (chunks = [] → add_documents embed col chunks metadata file_id = col) ∧
    (embed chunks = [] →
      add_documents embed col chunks metadata file_id = col) ∧
    (chunks ≠ [] → embed chunks ≠ [] →
      ∃ news : List Entry,
        add_documents embed col chunks metadata file_id
          = col.filter (fun e => news.all (fun n => n.id ≠ e.id)) ++ news ∧
        news.length = chunks.length ∧
        ∀ i, i < chunks.length →
          (news.getD i default).id = file_id ++ "_" ++ toString i ∧
          (news.getD i default).metadata.chunk_index = i ∧
          (news.getD i default).document = chunks.getD i "") := by
  refine ⟨?_, ?_, ?_⟩
  · intro h
    simp [add_documents, h]
  · intro h
    by_cases hc : chunks = []
    · simp [add_documents, hc]
    · simp [add_documents, hc, h]
  · intro hc he
    refine ⟨(List.range chunks.length).map
      (mkEntry metadata file_id chunks (embed chunks)), ?_, ?_, ?_⟩
    · simp only [add_documents, if_neg hc, if_neg he, collectionAdd]
    · simp
    · intro i hi
      have hget : ((List.range chunks.length).map
          (mkEntry metadata file_id chunks (embed chunks))).getD i default
          = mkEntry metadata file_id chunks (embed chunks) i := by
        rw [List.getD_eq_getElem?_getD, List.getElem?_map,
          List.getElem?_range hi]
        rfl
      rw [hget]
      exact ⟨rfl, rfl, rfl⟩

/-- C5 witness: two chunks of a Word file are stored as exactly two
entries with ids `fid_0`, `fid_1` and chunk indices 0, 1. -/
theorem add_documents_spec_witness :
    ∃ news : List Entry,
      add_documents embedOne [] ["chunk zero", "chunk one"]
          { file_name := "report.docx", file_path := "/docs/report.docx",
            file_type := some "Word", folder_path := some "/docs" } "fid"
        = List.filter (fun e => news.all (fun n => n.id ≠ e.id)) [] ++ news ∧
      news.length = (["chunk zero", "chunk one"] : List String).length ∧
      ∀ i, i < (["chunk zero", "chunk one"] : List String).length →
        (news.getD i default).id = "fid" ++ "_" ++ toString i ∧
        (news.getD i default).metadata.chunk_index = i ∧
        (news.getD i default).document
          = (["chunk zero", "chunk one"] : List String).getD i "" :=
  (add_documents_spec embedOne [] ["chunk zero", "chunk one"]
    { file_name := "report.docx", file_path := "/docs/report.docx",
      file_type := some "Word", folder_path := some "/docs" } "fid").2.2
    (by decide) (by decide)

/-! ## Claim C6 -/

/-- C6: re-adding a file under the same `file_id` with the same chunk
count overwrites the previous entries instead of duplicating them: the
resulting index is the original one with colliding ids removed plus the
second batch, its ids stay pairwise distinct (at most one entry per id)
and its size equals the size after the first add; and the `file_id`
computed by `extract_text` is a deterministic function of the file
path. -/
theorem add_documents_overwrite (embed : List String → List (List Rat))
    (col : List Entry) (chunks1 chunks2 : List String) (m1 m2 : AddMeta)
    (file_id : String) (hlen : chunks1.length = chunks2.length)
    (hne : chunks1 ≠ []) (he1 : embed chunks1 ≠ []) (he2 : embed chunks2 ≠ [])
    (hnodup : (col.map (fun e => e.id)).Nodup) :
    (add_documents embed (add_documents embed col chunks1 m1 file_id)
        chunks2 m2 file_id
      = col.filter (fun e =>
          ((List.range chunks2.length).map (mkId file_id)).all
            (fun id => id ≠ e.id))
        ++ (List.range chunks2.length).map
            (mkEntry m2 file_id chunks2 (embed chunks2))) ∧
    ((add_documents embed (add_documents embed col chunks1 m1 file_id)
        chunks2 m2 file_id).map (fun e => e.id)).Nodup ∧
    (add_documents embed (add_documents embed col chunks1 m1 file_id)
        chunks2 m2 file_id).length
      = (add_documents embed col chunks1 m1 file_id).length ∧
    (∀ p q : String, p = q →
      extract_text_file_id p = extract_text_file_id q) := by
  have hne2 : chunks2 ≠ [] := by
    intro h
    apply hne
    have h0 : chunks1.length = 0 := by rw [hlen, h, List.length_nil]
    exact List.length_eq_zero.mp h0
  have hA1 := add_documents_eq embed col chunks1 m1 file_id hne he1
  have hA2 := add_documents_eq embed
    (add_documents embed col chunks1 m1 file_id) chunks2 m2 file_id hne2 he2
  rw [hlen] at hA1
  have hnil : ((List.range chunks2.length).map
      (mkEntry m1 file_id chunks1 (embed chunks1))).filter
        (fun e => ((List.range chunks2.length).map (mkId file_id)).all
          (fun id => id ≠ e.id)) = [] := by
    rw [List.filter_eq_nil_iff]
    intro a ha
    simp only [List.mem_map, List.mem_range] at ha
    obtain ⟨i, hi, rfl⟩ := ha
    intro hall
    rw [List.all_eq_true] at hall
    have hmem : mkId file_id i
        ∈ (List.range chunks2.length).map (mkId file_id) :=
      List.mem_map_of_mem _ (List.mem_range.mpr hi)
    have hcontr := hall _ hmem
    simp [mkEntry] at hcontr
  have hidem : ((col.filter (fun e =>
      ((List.range chunks2.length).map (mkId file_id)).all
        (fun id => id ≠ e.id))).filter (fun e =>
      ((List.range chunks2.length).map (mkId file_id)).all
        (fun id => id ≠ e.id)))
      = col.filter (fun e =>
        ((List.range chunks2.length).map (mkId file_id)).all
          (fun id => id ≠ e.id)) := by
    rw [List.filter_filter]
    apply List.filter_congr
    intro e _
    rw [Bool.and_self]
  have key : add_documents embed (add_documents embed col chunks1 m1 file_id)
        chunks2 m2 file_id
      = col.filter (fun e =>
          ((List.range chunks2.length).map (mkId file_id)).all
            (fun id => id ≠ e.id))
        ++ (List.range chunks2.length).map
            (mkEntry m2 file_id chunks2 (embed chunks2)) := by
    rw [hA2, hA1, List.filter_append, hidem, hnil, List.append_nil]
  refine ⟨key, ?_, ?_, ?_⟩
  · rw [key, List.map_append, entries_map_id]
    apply List.Nodup.append
    · exact List.Nodup.sublist
        (List.Sublist.map _ (List.filter_sublist col)) hnodup
    · exact mkIds_nodup file_id chunks2.length
    · rw [List.disjoint_left]
      intro x hx hx2
      simp only [List.mem_map] at hx
      obtain ⟨e, he', rfl⟩ := hx
      have hPe := List.of_mem_filter he'
      rw [List.all_eq_true] at hPe
      have hcontr := hPe _ hx2
      simp at hcontr
  · rw [key, hA1]
    simp
  · intro p q h
    rw [h]

/-- C6 witness: re-adding the single-chunk file under the same id `f`
leaves an index with the one overwritten entry `f_0` and distinct
ids. -/
theorem add_documents_overwrite_witness :
    (add_documents embedOne (add_documents embedOne [] ["old text"]
        { file_name := "a.docx", file_path := "/d/a.docx",
          file_type := some "Word", folder_path := some "/d" } "f")
        ["new text"]
        { file_name := "a.docx", file_path := "/d/a.docx",
          file_type := some "Word", folder_path := some "/d" } "f"
      = List.filter (fun e =>
          ((List.range (["new text"] : List String).length).map (mkId "f")).all
            (fun id => id ≠ e.id)) []
        ++ (List.range (["new text"] : List String).length).map
            (mkEntry { file_name := "a.docx", file_path := "/d/a.docx",
                       file_type := some "Word", folder_path := some "/d" }
              "f" ["new text"] (embedOne ["new text"]))) ∧
    ((add_documents embedOne (add_documents embedOne [] ["old text"]
        { file_name := "a.docx", file_path := "/d/a.docx",
          file_type := some "Word", folder_path := some "/d" } "f")
        ["new text"]
        { file_name := "a.docx", file_path := "/d/a.docx",
          file_type := some "Word", folder_path := some "/d" } "f").map
        (fun e => e.id)).Nodup ∧
    (add_documents embedOne (add_documents embedOne [] ["old text"]
        { file_name := "a.docx", file_path := "/d/a.docx",
          file_type := some "Word", folder_path := some "/d" } "f")
        ["new text"]
        { file_name := "a.docx", file_path := "/d/a.docx",
          file_type := some "Word", folder_path := some "/d" } "f").length
      = (add_documents embedOne [] ["old text"]
          { file_name := "a.docx", file_path := "/d/a.docx",
            file_type := some "Word", folder_path := some "/d" } "f").length ∧
    (∀ p q : String, p = q →
      extract_text_file_id p = extract_text_file_id q) :=
  add_documents_overwrite embedOne [] ["old text"] ["new text"]
    { file_name := "a.docx", file_path := "/d/a.docx",
      file_type := some "Word", folder_path := some "/d" }
    { file_name := "a.docx", file_path := "/d/a.docx",
      file_type := some "Word", folder_path := some "/d" } "f"
    rfl (by decide) (by decide) (by decide) (by simp)

/-! ## Claim C3 -/

/-- C3: if embedding the query fails, `search` returns the empty result
set; otherwise it returns one result slot holding at most `n_results`
stored entries (`picked`), drawn from the collection, ordered nearest
first by distance to the query embedding and no farther than any
unreturned entry of the filtered collection (`rest`); when a non-empty
`folder_path` is supplied, every returned entry has exactly that
`folder_path` metadata (string equality). -/
theorem search_spec (embed : List String → List (List Rat)) (col : List Entry)
    (query : String) (n_results : Nat) (folder_path : Option String) :
    (embed [query] = [] →
      search embed col query n_results folder_path
        = { documents := [], metadatas := [] }) ∧
    (embed [query] ≠ [] →
      ∃ picked rest : List Entry,
        search embed col query n_results folder_path
          = { documents := [picked.map (fun e => e.document)],
              metadatas := [picked.map (fun e => e.metadata)] } ∧
        picked.length ≤ n_results ∧
        (∀ e ∈ picked, e ∈ col) ∧
        (picked ++ rest).Perm (col.filter
          (fun e => matchesWhere (whereOf folder_path) e.metadata)) ∧
        picked.Pairwise (fun a b =>
          sqDist a.embedding ((embed [query]).headD [])
            ≤ sqDist b.embedding ((embed [query]).headD [])) ∧
        (∀ p ∈ picked, ∀ r ∈ rest,
          sqDist p.embedding ((embed [query]).headD [])
            ≤ sqDist r.embedding ((embed [query]).headD [])) ∧
        (∀ fpv, folder_path = some fpv → fpv ≠ "" →
          ∀ e ∈ picked, e.metadata.folder_path = fpv)) := by
  constructor
  · intro h
    simp [search, h]
  · intro he
    have htrans : ∀ a b c : Entry,
        distLe ((embed [query]).headD []) a b = true →
        distLe ((embed [query]).headD []) b c = true →
        distLe ((embed [query]).headD []) a c = true := by
      intro a b c
      simp only [distLe, decide_eq_true_eq]
      exact fun h1 h2 => le_trans h1 h2
    have htot : ∀ a b : Entry,
        (distLe ((embed [query]).headD []) a b
          || distLe ((embed [query]).headD []) b a) = true := by
      intro a b
      simp only [distLe, Bool.or_eq_true, decide_eq_true_eq]
      exact le_total _ _
    have hsorted := List.sorted_mergeSort htrans htot
      (col.filter (fun e => matchesWhere (whereOf folder_path) e.metadata))
    refine ⟨((col.filter (fun e =>
        matchesWhere (whereOf folder_path) e.metadata)).mergeSort
          (distLe ((embed [query]).headD []))).take n_results,
      ((col.filter (fun e =>
        matchesWhere (whereOf folder_path) e.metadata)).mergeSort
          (distLe ((embed [query]).headD []))).drop n_results,
      ?_, ?_, ?_, ?_, ?_, ?_, ?_⟩
    · simp only [search, if_neg he, collectionQuery]
    · exact List.length_take_le _ _
    · intro e hep
      have h1 := List.take_subset _ _ hep
      have h2 := (List.mergeSort_perm _ _).mem_iff.mp h1
      exact List.mem_of_mem_filter h2
    · rw [List.take_append_drop]
      exact List.mergeSort_perm _ _
    · have hsub := List.Pairwise.sublist (List.take_sublist n_results _) hsorted
      exact hsub.imp (fun h => by simpa [distLe] using h)
    · have hsorted2 := hsorted
      rw [← List.take_append_drop n_results
        ((col.filter (fun e =>
          matchesWhere (whereOf folder_path) e.metadata)).mergeSort
            (distLe ((embed [query]).headD [])))] at hsorted2
      have hcross := (List.pairwise_append.mp hsorted2).2.2
      intro p hp r hr
      have h3 := hcross p hp r hr
      simpa [distLe] using h3
    · intro fpv hfp hnefp e hep
      subst hfp
      have h1 := List.take_subset _ _ hep
      have h2 := (List.mergeSort_perm _ _).mem_iff.mp h1
      have h3 := List.of_mem_filter h2
      have hw : whereOf (some fpv) = some fpv := by simp [whereOf, hnefp]
      rw [hw] at h3
      simpa [matchesWhere] using h3

/-- C3 witness: a failing embedding oracle gives the empty result set;
a working one on a one-entry collection returns the picked entries with
all the ranking and filter properties. -/
theorem search_spec_witness :
    (search embedFail [sampleEntry] "q" 3 none
      = { documents := [], metadatas := [] }) ∧
    ∃ picked rest : List Entry,
      search embedOne [sampleEntry] "q" 3 none
        = { documents := [picked.map (fun e => e.document)],
            metadatas := [picked.map (fun e => e.metadata)] } ∧
      picked.length ≤ 3 ∧
      (∀ e ∈ picked, e ∈ [sampleEntry]) ∧
      (picked ++ rest).Perm ([sampleEntry].filter
        (fun e => matchesWhere (whereOf none) e.metadata)) ∧
      picked.Pairwise (fun a b =>
        sqDist a.embedding ((embedOne ["q"]).headD [])
          ≤ sqDist b.embedding ((embedOne ["q"]).headD [])) ∧
      (∀ p ∈ picked, ∀ r ∈ rest,
        sqDist p.embedding ((embedOne ["q"]).headD [])
          ≤ sqDist r.embedding ((embedOne ["q"]).headD [])) ∧
      (∀ fpv, (none : Option String) = some fpv → fpv ≠ "" →
        ∀ e ∈ picked, e.metadata.folder_path = fpv) :=
  ⟨(search_spec embedFail [sampleEntry] "q" 3 none).1 rfl,
   (search_spec embedOne [sampleEntry] "q" 3 none).2 (by decide)⟩
